import Mathlib

/-!
Verification of the `cliff-map` concurrent hash table repository.

The repository sources available are `src/lib.rs` (integration tests),
`src/raw/utils.rs` and `src/raw/utils/mod.rs` (tagged pointers, the sharded
counter, the SIMD group matcher, atomic pointer fetch_or, guard wrappers).
The map engine itself (`map.rs`, the raw table) is not present, so the
per-key map semantics and the guard-validation boundary are modelled from
the specification; every other definition is a direct shallow embedding of
the Rust code, with `usize`/`u16` arithmetic carried out on `Nat` (masking
by the word size where the code can overflow) and `isize` on `Int`.
-/

/-  ------------------------------------------------------------------
    Per-key map semantics (spec-modelled: map.rs is not under src/).
    ------------------------------------------------------------------ -/

/-- Modelled from the spec: the observable per-key state of the hash map
(`map.rs` and the raw table are missing from the sources; §4.4 of the spec
describes `get`/`insert`/`update`/`remove` observable behaviour, per-key
linearizable). The map is the function from keys to the currently live
value. -/
def MapState (K V : Type) : Type := K → Option V

/-- Modelled from the spec: `get(k)` returns the live value for `k`, absent
otherwise (§4.4 "get(k)"). -/
def mapGet {K V : Type} (m : MapState K V) (k : K) : Option V := m k

/-- Modelled from the spec: `insert(k, v)` publishes a new entry for `k` and
returns the previous value, `None` if `k` was absent (§4.4
"insert(k, v) → Option<previous>"). Result is (new state, previous). -/
def mapInsert {K V : Type} [DecidableEq K] (m : MapState K V) (k : K) (v : V) :
    MapState K V × Option V :=
  (fun j => if j = k then some v else m j, m k)

/-- Modelled from the spec: `update(k, f)` uses the same location logic as
insert and the new entry carries `f(&old_value)` (§4.4); for an absent key
nothing is written and `None` is returned. The returned value follows the
staged `basic` test (src/lib.rs lines 73-87): after `insert(i, i+1)`,
`update(i, |i| i - 1)` asserts `Some(&(i+1))` — the previous value, with
the following gets asserting the new value `i` — so the map's `update`
returns the previous value, not the `Option<new>` the spec's §4.4
states. -/
def mapUpdate {K V : Type} [DecidableEq K] (m : MapState K V) (k : K) (f : V → V) :
    MapState K V × Option V :=
  match m k with
  | some v => (fun j => if j = k then some (f v) else m j, some v)
  | none => (m, none)

/-- Modelled from the spec: `remove(k)` replaces the live entry by a
tombstone and returns its value, absent when there is no live entry (§4.4
"remove(k) → Option<value>"). -/
def mapRemove {K V : Type} [DecidableEq K] (m : MapState K V) (k : K) :
    MapState K V × Option V :=
  (fun j => if j = k then none else m j, m k)

/-  ------------------------------------------------------------------
    Sharded counter (src/raw/utils/mod.rs lines 175-209,
    src/raw/utils.rs lines 141-171).
    ------------------------------------------------------------------ -/

/-- The sharded counter `Counter(Box<[CachePadded<AtomicIsize>]>)`: a
sequence of signed shard values (the cache padding is memory layout only
and does not affect the values). -/
abbrev Counter : Type := List Int

/-- `Counter::default()`: `available_parallelism().map(usize::from).unwrap_or(1)`
CPUs rounded up with `next_power_of_two`, one zero-initialised shard each.
`avail` is the result of `std::thread::available_parallelism()`
(`none` when unknown). -/
def counterDefault (avail : Option Nat) : Counter :=
  List.replicate (Nat.nextPowerOfTwo (avail.getD 1)) 0

/-- `Counter::get`: `&self.0[thread & (self.0.len() - 1)].value`. The index
computed before the (panicking) slice index. -/
def counterIndex (cnt : Counter) (thread : Nat) : Nat :=
  thread &&& (List.length cnt - 1)

/-- `Counter::get` as a total function: `none` models the index panic. -/
def counterGet (cnt : Counter) (thread : Nat) : Option Int :=
  cnt[counterIndex cnt thread]?

/-- `Counter::sum` (named `active` in src/raw/utils.rs): sum the Relaxed
loads of all shards as `isize`, then `try_into::<usize>().unwrap_or(0)`,
which clamps a negative sum to zero. -/
def counterSum (cnt : Counter) : Nat :=
  (List.sum (cnt.map (fun x => x))).toNat

/-  ------------------------------------------------------------------
    C4: Counter::sum clamps the signed shard sum at zero.
    ------------------------------------------------------------------ -/

/-- C4: for every shard state whose values sum to `s`, `Counter::sum`
returns `max s 0` as an unsigned count. -/
theorem counterSum_eq_max (cnt : Counter) :
    (counterSum cnt : Int) = max (List.sum cnt) 0 := by
  unfold counterSum
  rw [List.map_id']
  exact Int.toNat_eq_max _

/-  ------------------------------------------------------------------
    C5: default Counter shape and shard selection.
    ------------------------------------------------------------------ -/

/-- C5: a default Counter has exactly `next_power_of_two(#cpus)` shards
(at least 1, and exactly 1 when the available parallelism is unknown),
and `Counter::get` selects the shard at index `thread & (shards - 1)`. -/
theorem counterDefault_spec (avail : Option Nat) :
    List.length (counterDefault avail) = Nat.nextPowerOfTwo (avail.getD 1) ∧
    0 < List.length (counterDefault avail) ∧
    (avail = none → List.length (counterDefault avail) = 1) ∧
    (List.length (counterDefault avail)).isPowerOfTwo ∧
    ∀ thread, counterGet (counterDefault avail) thread =
      (counterDefault avail)[thread &&& (List.length (counterDefault avail) - 1)]? := by
  refine ⟨List.length_replicate _ _, ?_, ?_, ?_, fun _ => rfl⟩
  · rw [counterDefault, List.length_replicate]
    exact Nat.pos_of_isPowerOfTwo (Nat.isPowerOfTwo_nextPowerOfTwo _)
  · rintro rfl
    rw [counterDefault, List.length_replicate]
    simp [Nat.nextPowerOfTwo, Nat.nextPowerOfTwo.go]
  · rw [counterDefault, List.length_replicate]
    exact Nat.isPowerOfTwo_nextPowerOfTwo _

/-- C5 witness: evaluated at an unknown parallelism and at 3 CPUs. -/
theorem counterDefault_spec_witness :
    List.length (counterDefault none) = 1 ∧
    List.length (counterDefault (some 3)) = Nat.nextPowerOfTwo 3 ∧
    counterGet (counterDefault (some 3)) 7 =
      (counterDefault (some 3))[7 &&& (List.length (counterDefault (some 3)) - 1)]? :=
  ⟨(counterDefault_spec none).2.2.1 rfl, (counterDefault_spec (some 3)).1,
    (counterDefault_spec (some 3)).2.2.2.2 7⟩

/-  ------------------------------------------------------------------
    C10: Counter::get never indexes out of bounds.
    ------------------------------------------------------------------ -/

/-- C10: for a counter whose shard count is a power of two (hence nonzero),
the index `thread & (len - 1)` is strictly below the length, so
`Counter::get` never panics: it returns an actual shard for every thread
id. -/
theorem counterGet_in_bounds (cnt : Counter) (thread : Nat)
    (h : (List.length cnt).isPowerOfTwo) :
    counterIndex cnt thread < List.length cnt ∧
    (counterGet cnt thread).isSome := by
  have hpos : 0 < List.length cnt := Nat.pos_of_isPowerOfTwo h
  have hlt : counterIndex cnt thread < List.length cnt := by
    calc counterIndex cnt thread ≤ List.length cnt - 1 := Nat.and_le_right
    _ < List.length cnt := Nat.sub_lt hpos Nat.one_pos
  exact ⟨hlt, by rw [counterGet, List.getElem?_eq_getElem hlt]; rfl⟩

/-- C10 witness: a two-shard counter, thread id 5. -/
theorem counterGet_in_bounds_witness :
    counterIndex [4, 7] 5 < List.length [4, 7] ∧
    (counterGet [(4 : Int), 7] 5).isSome :=
  counterGet_in_bounds [4, 7] 5 ⟨1, rfl⟩

/-  ------------------------------------------------------------------
    C1: update stores f(v) but returns the previous value; the claim's
    "returns Some(f(v))" is refuted by the staged basic test.
    ------------------------------------------------------------------ -/

/-- C1 counterexample: on the one-key map `{1 ↦ 10}`, `update(1, + 2)`
stores 12 but returns `some 10`, the previous value — not `some 12` as the
claim states (mirroring src/lib.rs lines 81-83, where after
`insert(i, i+1)` the call `update(i, |i| i - 1)` asserts `Some(&(i+1))`,
not the new value). -/
theorem mapUpdate_new_value_counterexample :
    (mapUpdate (fun j => if j = 1 then some 10 else none) 1 (fun x => x + 2)).2
        = some 10 ∧
    (mapUpdate (fun j => if j = (1 : Nat) then some (10 : Nat) else none) 1
        (fun x => x + 2)).2 ≠ some 12 := by
  exact ⟨rfl, by decide⟩

/-- C1 (amended): for every key `k` present with value `v`, `update(k, f)`
stores `f v` — a subsequent `get(k)` returns `some (f v)` — but returns
`some v`, the previous value; for an absent key `update` returns
`none`. -/
theorem mapUpdate_returns_previous {K V : Type} [DecidableEq K]
    (m : MapState K V) (k : K) (f : V → V) :
    (∀ v, mapGet m k = some v →
      (mapUpdate m k f).2 = some v ∧
      mapGet (mapUpdate m k f).1 k = some (f v)) ∧
    (mapGet m k = none → (mapUpdate m k f).2 = none) := by
  constructor
  · intro v hv
    rw [mapUpdate, mapGet] at *
    rw [hv]
    exact ⟨rfl, by simp [mapGet]⟩
  · intro hv
    rw [mapGet] at hv
    rw [mapUpdate, hv]

/-- C1 witness: a one-key map over `Nat`, updated with `+ 2`: the return is
the previous value 10, the stored value becomes 12. -/
theorem mapUpdate_returns_previous_witness :
    (mapUpdate (fun j => if j = 1 then some 10 else none) 1 (fun x => x + 2)).2
        = some 10 ∧
    mapGet (mapUpdate (fun j => if j = 1 then some 10 else none) 1
        (fun x => x + 2)).1 1 = some 12 ∧
    (mapUpdate (fun j => if j = (1 : Nat) then some (10 : Nat) else none) 2
        (fun x => x + 2)).2 = none := by
  refine ⟨((mapUpdate_returns_previous (fun j => if j = 1 then some 10 else none) 1
      (fun x => x + 2)).1 10 (by rfl)).1,
    ((mapUpdate_returns_previous (fun j => if j = 1 then some 10 else none) 1
      (fun x => x + 2)).1 10 (by rfl)).2,
    (mapUpdate_returns_previous
      (fun j => if j = (1 : Nat) then some (10 : Nat) else none) 2
      (fun x => x + 2)).2 rfl⟩

/-  ------------------------------------------------------------------
    C2: insert returns the previous value, round-trips with get/remove.
    ------------------------------------------------------------------ -/

/-- C2: `insert(k, v)` returns the previous value for `k` (`none` if absent),
a `get(k)` after the insert with no intervening write to `k` returns
`some v`, and `remove(k)` after the insert returns the value just
inserted. -/
theorem mapInsert_spec {K V : Type} [DecidableEq K]
    (m : MapState K V) (k : K) (v : V) :
    (mapInsert m k v).2 = mapGet m k ∧
    mapGet (mapInsert m k v).1 k = some v ∧
    (mapRemove (mapInsert m k v).1 k).2 = some v := by
  refine ⟨rfl, ?_, ?_⟩ <;> simp [mapInsert, mapGet, mapRemove]

/-  ------------------------------------------------------------------
    C3: remove makes the key absent until the next insert; a second
    remove returns absent.
    ------------------------------------------------------------------ -/

/-- C3: after `remove(k)` succeeds, `get(k)` is absent; writes to other
keys keep it absent; a second `remove(k)` with no intervening insert
returns absent; the next `insert(k, w)` makes `get(k)` live again. -/
theorem mapRemove_spec {K V : Type} [DecidableEq K]
    (m : MapState K V) (k : K) (v : V) (h : mapGet m k = some v) :
    (mapRemove m k).2 = some v ∧
    mapGet (mapRemove m k).1 k = none ∧
    (mapRemove (mapRemove m k).1 k).2 = none ∧
    (∀ j w, j ≠ k → mapGet (mapInsert (mapRemove m k).1 j w).1 k = none) ∧
    (∀ w, mapGet (mapInsert (mapRemove m k).1 k w).1 k = some w) := by
  rw [mapGet] at h
  refine ⟨h, by simp [mapRemove, mapGet], by simp [mapRemove, mapGet], ?_, ?_⟩
  · intro j w hjk
    have hkj : ¬(k = j) := fun hkj => hjk hkj.symm
    simp [mapRemove, mapGet, mapInsert, hkj]
  · intro w
    simp [mapRemove, mapGet, mapInsert]

/-- C3 witness: a one-key map over `Nat`, key 1 removed. -/
theorem mapRemove_spec_witness :
    (mapRemove (fun j => if j = 1 then some 10 else none) 1).2 = some 10 ∧
    mapGet (mapRemove (fun j => if j = (1 : Nat) then some (10 : Nat) else none)
      1).1 1 = none ∧
    (mapRemove (mapRemove (fun j => if j = 1 then some 10 else none) 1).1 1).2
      = none ∧
    (∀ j w, j ≠ 1 → mapGet (mapInsert
      (mapRemove (fun j => if j = 1 then some 10 else none) 1).1 j w).1 1
      = none) ∧
    (∀ w, mapGet (mapInsert
      (mapRemove (fun j => if j = 1 then some 10 else none) 1).1 1 w).1 1
      = some w) :=
  mapRemove_spec (fun j => if j = 1 then some 10 else none) 1 10 rfl

/-  ------------------------------------------------------------------
    Tagged pointers (src/raw/utils/mod.rs lines 8-92,
    src/raw/utils.rs lines 3-39). Pointers are modelled by their
    addresses: `usize` values, i.e. naturals below 2^64.
    ------------------------------------------------------------------ -/

/-- Rust `!x` (bitwise complement) on a 64-bit `usize`. -/
def usizeNot (x : Nat) : Nat := x ^^^ (2 ^ 64 - 1)

/-- `Tagged<T>` from src/raw/utils/mod.rs: the raw tagged pointer and the
untagged pointer, modelled by addresses. -/
structure Tagged where
  raw : Nat
  ptr : Nat

/-- `StrictProvenance::unpack` for `*mut T`:
`Tagged { raw: self, ptr: self.map_addr(|addr| addr & T::MASK) }`.
`mask` stands for the associated constant `T::MASK`. -/
def unpack (p : Nat) (mask : Nat) : Tagged :=
  ⟨p, p &&& mask⟩

/-- `Tagged::tag`: `self.raw.addr() & !T::MASK`. -/
def Tagged.tag (t : Tagged) (mask : Nat) : Nat :=
  t.raw &&& usizeNot mask

/-- Modelled from the spec: the `Entry` pointer tag constants (`Entry` and
its `MASK` constant live in the raw table code, which is not under src/;
§4.1: entries are aligned ≥ 8, the low 3 bits hold one of
LIVE=0, TOMBSTONE=1, COPIED=2, LOCKED=3, and `MASK` clears the low tag
bits). -/
def entryMask : Nat := usizeNot 7

/-- Modelled from the spec: the LIVE tag (§4.1). -/
def entryLive : Nat := 0

/-- Modelled from the spec: the TOMBSTONE tag (§4.1). -/
def entryTombstone : Nat := 1

/-- Modelled from the spec: the COPIED tag (§4.1). -/
def entryCopied : Nat := 2

/-- Modelled from the spec: the LOCKED tag (§4.1). -/
def entryLocked : Nat := 3

/-  ------------------------------------------------------------------
    C7: unpack splits a pointer into untagged address and tag.
    ------------------------------------------------------------------ -/

/-- C7: for a pointer `p` (a `usize` address) and a tag mask, `unpack`
keeps `raw = p`, the untagged pointer is `p &&& mask`, the tag is
`p &&& !mask`, and untagged-OR-tag reconstructs `p` exactly; with the
`Entry` mask the tag is the low 3 bits (so below 8), and the tag constants
are LIVE=0, TOMBSTONE=1, COPIED=2, LOCKED=3. -/
theorem unpack_spec (p mask : Nat) (hp : p < 2 ^ 64) :
    (unpack p mask).raw = p ∧
    (unpack p mask).ptr = p &&& mask ∧
    Tagged.tag (unpack p mask) mask = p &&& usizeNot mask ∧
    ((unpack p mask).ptr ||| Tagged.tag (unpack p mask) mask) = p ∧
    Tagged.tag (unpack p entryMask) entryMask = p &&& 7 ∧
    Tagged.tag (unpack p entryMask) entryMask < 8 ∧
    entryLive = 0 ∧ entryTombstone = 1 ∧ entryCopied = 2 ∧ entryLocked = 3 := by
  have hnotnot : usizeNot entryMask = 7 := by decide
  have hrecon : ((unpack p mask).ptr ||| Tagged.tag (unpack p mask) mask) = p := by
    apply Nat.eq_of_testBit_eq
    intro i
    rw [unpack, Tagged.tag, usizeNot]
    simp only [Nat.testBit_lor, Nat.testBit_land, Nat.testBit_xor,
      Nat.testBit_two_pow_sub_one]
    by_cases hi : i < 64
    · cases hpi : p.testBit i <;> cases hmi : mask.testBit i <;> simp [hi]
    · have : p.testBit i = false := by
        apply Nat.testBit_eq_false_of_lt
        calc p < 2 ^ 64 := hp
        _ ≤ 2 ^ i := Nat.pow_le_pow_right (by omega) (by omega)
      simp [this, hi]
  have htag7 : Tagged.tag (unpack p entryMask) entryMask = p &&& 7 := by
    rw [Tagged.tag, unpack, hnotnot]
  refine ⟨rfl, rfl, rfl, hrecon, htag7, ?_, rfl, rfl, rfl, rfl⟩
  rw [htag7]
  have : p &&& 7 ≤ 7 := Nat.and_le_right
  omega

/-- C7 witness: the tagged pointer with address 4098 (an 8-aligned entry
address 4096 carrying the COPIED tag). -/
theorem unpack_spec_witness :
    (unpack 4098 entryMask).raw = 4098 ∧
    (unpack 4098 entryMask).ptr = 4098 &&& entryMask ∧
    Tagged.tag (unpack 4098 entryMask) entryMask = 4098 &&& usizeNot entryMask ∧
    ((unpack 4098 entryMask).ptr ||| Tagged.tag (unpack 4098 entryMask) entryMask)
      = 4098 ∧
    Tagged.tag (unpack 4098 entryMask) entryMask = 4098 &&& 7 ∧
    Tagged.tag (unpack 4098 entryMask) entryMask < 8 ∧
    entryLive = 0 ∧ entryTombstone = 1 ∧ entryCopied = 2 ∧ entryLocked = 3 :=
  unpack_spec 4098 entryMask (by decide)

/-  ------------------------------------------------------------------
    AtomicPtr::fetch_or (src/raw/utils/mod.rs lines 94-131,
    src/raw/utils.rs lines 41-64). The atomic cell is modelled by its
    stored address; each path returns (previous value, new stored value).
    ------------------------------------------------------------------ -/

/-- The non-miri path of `AtomicPtr::fetch_or`: reinterpret the cell as an
`AtomicUsize` and `fetch_or(value, ordering)`: the stored address becomes
`old | value` and the old address is returned as the pointer. -/
def fetchOrUsize (stored value : Nat) : Nat × Nat :=
  (stored, stored ||| value)

/-- `AtomicPtr::fetch_update(set, fetch, f)` on the modelled cell: apply `f`
to the stored pointer; on `some new` store it and return `Ok` of the old
pointer together with the new stored value, on `none` return `Err` of the
old pointer (the cell unchanged). -/
def fetchUpdate (f : Nat → Option Nat) (stored : Nat) : Except Nat (Nat × Nat) :=
  match f stored with
  | some n => Except.ok (stored, n)
  | none => Except.error stored

/-- The miri path of `AtomicPtr::fetch_or`:
`fetch_update(.., |ptr| Some(ptr.map_addr(|addr| addr | value))).unwrap()`. -/
def fetchOrMiri (stored value : Nat) : Except Nat (Nat × Nat) :=
  fetchUpdate (fun ptr => some (ptr ||| value)) stored

/-  ------------------------------------------------------------------
    C9: both fetch_or implementations agree.
    ------------------------------------------------------------------ -/

/-- C9: the miri path of `fetch_or` always succeeds (so its `unwrap` cannot
panic) and computes exactly the non-miri path: the previously stored
pointer is returned and the new stored address is `old | value`, for every
stored pointer and every value. -/
theorem fetchOr_paths_agree (stored value : Nat) :
    fetchOrMiri stored value = Except.ok (fetchOrUsize stored value) ∧
    fetchOrUsize stored value = (stored, stored ||| value) :=
  ⟨rfl, rfl⟩

/-  ------------------------------------------------------------------
    Guard verification boundary (src/raw/utils/mod.rs lines 239-310;
    the boundary check itself lives in map.rs, not under src/).
    ------------------------------------------------------------------ -/

/-- `MapGuard<G>(G)` from src/raw/utils/mod.rs: the transparent wrapper
marking a guard as verified for a given map. -/
structure MapGuard (G : Type) where
  guard : G

/-- Modelled from the spec: the boundary validation (§4.7, §7: the table
validates each caller guard against its own collector once at the boundary;
`guard.belongs_to(collector) == false` is a panic). `belongsTo` is the
result of `guard.belongs_to(map.collector)`; the error value models the
panic. -/
def checkGuard {G : Type} (belongsTo : Bool) (g : G) : Except String (MapGuard G) :=
  if belongsTo then Except.ok ⟨g⟩
  else Except.error "guard does not belong to the map collector"

/-- Modelled from the spec: a guard-accepting map operation: the caller
guard is validated exactly once at the boundary and wrapped into
`MapGuard`; only then does the table operation `op` run. On a foreign
guard the table is untouched. -/
def guardedOp {G K V R : Type} (belongsTo : Bool) (g : G) (m : MapState K V)
    (op : MapGuard G → MapState K V → MapState K V × R) :
    MapState K V × Except String R :=
  match checkGuard belongsTo g with
  | Except.ok vg => ((op vg m).1, Except.ok (op vg m).2)
  | Except.error e => (m, Except.error e)

/-  ------------------------------------------------------------------
    C8: foreign guards are rejected at the boundary, table untouched.
    ------------------------------------------------------------------ -/

/-- C8: a guard whose `belongs_to(collector)` is false is rejected with a
panic and the operation leaves the table untouched; a verified guard is
wrapped once into `MapGuard` and the operation runs on the wrapped
guard. -/
theorem guardedOp_spec {G K V R : Type} (belongsTo : Bool) (g : G)
    (m : MapState K V) (op : MapGuard G → MapState K V → MapState K V × R) :
    (belongsTo = false →
      guardedOp belongsTo g m op
        = (m, Except.error "guard does not belong to the map collector")) ∧
    (belongsTo = true →
      guardedOp belongsTo g m op
        = ((op ⟨g⟩ m).1, Except.ok (op ⟨g⟩ m).2)) := by
  cases belongsTo
  · exact ⟨fun _ => rfl, fun h => (nomatch h)⟩
  · exact ⟨fun h => (nomatch h), fun _ => rfl⟩

/-- C8 witness: an insert through the boundary with a foreign guard and
with an owned guard. -/
theorem guardedOp_spec_witness :
    guardedOp false () (fun _ => (none : Option Nat))
        (fun _ mm => mapInsert mm 1 2)
      = ((fun _ => none),
          Except.error "guard does not belong to the map collector") ∧
    guardedOp true () (fun _ => (none : Option Nat))
        (fun _ mm => mapInsert mm 1 2)
      = ((mapInsert (fun _ => none) 1 2).1,
          Except.ok (mapInsert (fun _ => none) 1 2).2) :=
  ⟨(guardedOp_spec false () (fun _ => none) (fun _ mm => mapInsert mm 1 2)).1 rfl,
    (guardedOp_spec true () (fun _ => none) (fun _ mm => mapInsert mm 1 2)).2 rfl⟩

/-  ------------------------------------------------------------------
    SIMD group matcher (src/raw/utils.rs lines 173-223). A 16-byte
    group is a function `Fin 16 → Nat` (byte values); the `BitIter`
    state is its `u16` mask value.
    ------------------------------------------------------------------ -/

/-- Little-endian bits-to-number: bit `i` of the result is element `i` of
the list. -/
def ofBits : List Bool → Nat
  | [] => 0
  | b :: l => (if b then 1 else 0) + 2 * ofBits l

/-- `_mm_cmpeq_epi8(group, _mm_set1_epi8(byte))`: per lane, all-ones byte
on equality and zero otherwise. -/
def cmpeqEpi8 (group : Fin 16 → Nat) (byte : Nat) : Fin 16 → Nat :=
  fun i => if group i = byte then 255 else 0

/-- `_mm_movemask_epi8`: the 16-bit mask collecting the most significant
bit of each byte lane. -/
def movemaskEpi8 (v : Fin 16 → Nat) : Nat :=
  ofBits (List.ofFn (fun i : Fin 16 => Nat.testBit (v i) 7))

/-- `match_byte(group, byte)`: `BitIter(_mm_movemask_epi8(cmp) as u16)`;
the returned iterator is identified with its mask state. -/
def matchByte (group : Fin 16 → Nat) (byte : Nat) : Nat :=
  movemaskEpi8 (cmpeqEpi8 group byte)

/-- `BitIter::any_set`: `self.0 != 0`. -/
def anySet (m : Nat) : Bool := m != 0

/-- `u16::trailing_zeros` for a nonzero input (the `NonZeroU16` in the
source guarantees the argument is nonzero; `0` is mapped to `0`,
unused). -/
def ctz (m : Nat) : Nat :=
  if h : m % 2 = 1 ∨ m = 0 then 0 else ctz (m / 2) + 1
decreasing_by
  simp only [not_or] at h
  exact Nat.div_lt_self (Nat.pos_of_ne_zero h.2) (by omega)

/-- `BitIter::next`: on a zero mask stop; otherwise yield the index of the
lowest set bit (`trailing_zeros`) and clear it (`self.0 & (self.0 - 1)`). -/
def bitIterNext (m : Nat) : Option (Nat × Nat) :=
  if m = 0 then none else some (ctz m, m &&& (m - 1))

/-- The full yield sequence of a `BitIter` run to exhaustion. -/
def bitIterList (m : Nat) : List Nat :=
  if h : m = 0 then [] else ctz m :: bitIterList (m &&& (m - 1))
decreasing_by
  calc m &&& (m - 1) ≤ m - 1 := Nat.and_le_right
  _ < m := Nat.sub_lt (Nat.pos_of_ne_zero h) Nat.one_pos

/-- `bitIterList` is exactly the unfolding of `BitIter::next`. -/
theorem bitIterList_eq_next (m : Nat) :
    bitIterList m = match bitIterNext m with
      | none => []
      | some (bit, rest) => bit :: bitIterList rest := by
  by_cases h : m = 0
  · rw [bitIterList, bitIterNext]
    simp [h]
  · rw [bitIterList, bitIterNext]
    simp [h]

theorem ctz_odd (q : Nat) : ctz (2 * q + 1) = 0 := by
  rw [ctz]
  simp [Nat.mul_add_mod]

theorem ctz_even (q : Nat) (hq : q ≠ 0) : ctz (2 * q) = ctz q + 1 := by
  rw [ctz]
  have h1 : ¬((2 * q) % 2 = 1 ∨ 2 * q = 0) := by omega
  rw [dif_neg h1]
  congr 1
  congr 1
  omega

theorem testBit_two_mul (q i : Nat) : (2 * q).testBit (i + 1) = q.testBit i := by
  rw [Nat.testBit_succ]
  congr 1
  omega

theorem testBit_two_mul_zero (q : Nat) : (2 * q).testBit 0 = false := by
  rw [Nat.testBit_zero]
  simp [Nat.mul_mod_right]

theorem testBit_two_mul_add_one (q i : Nat) :
    (2 * q + 1).testBit (i + 1) = q.testBit i := by
  rw [Nat.testBit_succ]
  congr 1
  omega

theorem testBit_two_mul_add_one_zero (q : Nat) : (2 * q + 1).testBit 0 = true := by
  rw [Nat.testBit_zero]
  simp [Nat.mul_add_mod]

theorem and_pred_odd (q : Nat) : (2 * q + 1) &&& (2 * q) = 2 * q := by
  apply Nat.eq_of_testBit_eq
  intro i
  rw [Nat.testBit_land]
  cases i with
  | zero => rw [testBit_two_mul_add_one_zero, testBit_two_mul_zero]; rfl
  | succ j =>
      rw [testBit_two_mul_add_one, testBit_two_mul]
      exact Bool.and_self _

theorem and_pred_even (q : Nat) :
    (2 * q) &&& (2 * q - 1) = 2 * (q &&& (q - 1)) := by
  apply Nat.eq_of_testBit_eq
  intro i
  rw [Nat.testBit_land]
  cases i with
  | zero =>
      rw [testBit_two_mul_zero, testBit_two_mul_zero]
      rfl
  | succ j =>
      rw [testBit_two_mul, testBit_two_mul, Nat.testBit_land, Nat.testBit_succ]
      congr 2
      omega

theorem bitIterList_zero : bitIterList 0 = [] := by
  rw [bitIterList]
  rfl

theorem bitIterList_two_mul (q : Nat) :
    bitIterList (2 * q) = (bitIterList q).map (· + 1) := by
  induction q using Nat.strong_induction_on with
  | _ q ih =>
    by_cases hq : q = 0
    · subst hq
      norm_num [bitIterList_zero]
    · have h2q : 2 * q ≠ 0 := by omega
      rw [bitIterList, dif_neg h2q, ctz_even q hq, and_pred_even q,
        ih (q &&& (q - 1))
          (Nat.lt_of_le_of_lt Nat.and_le_right
            (Nat.sub_lt (Nat.pos_of_ne_zero hq) Nat.one_pos))]
      conv_rhs => rw [bitIterList, dif_neg hq]
      rw [List.map_cons]

theorem bitIterList_two_mul_add_one (q : Nat) :
    bitIterList (2 * q + 1) = 0 :: (bitIterList q).map (· + 1) := by
  have h : 2 * q + 1 ≠ 0 := by omega
  rw [bitIterList, dif_neg h, ctz_odd]
  have hsub : 2 * q + 1 - 1 = 2 * q := by omega
  rw [hsub, and_pred_odd, bitIterList_two_mul]

theorem mem_bitIterList (m : Nat) :
    ∀ i, i ∈ bitIterList m ↔ m.testBit i = true := by
  induction m using Nat.strong_induction_on with
  | _ m ih =>
    intro i
    by_cases hm : m = 0
    · subst hm
      rw [bitIterList_zero]
      simp [Nat.zero_testBit]
    · rcases Nat.even_or_odd m with he | ho
      · obtain ⟨q, hq⟩ := he
        have hq2 : m = 2 * q := by omega
        have hqm : q < m := by omega
        have hq0 : q ≠ 0 := by omega
        subst hq2
        rw [bitIterList_two_mul]
        cases i with
        | zero =>
            rw [testBit_two_mul_zero]
            simp
        | succ j =>
            rw [testBit_two_mul]
            simp only [List.mem_map]
            constructor
            · rintro ⟨a, ha, hax⟩
              have haj : a = j := by omega
              subst haj
              exact ((ih q hqm a).1 ha)
            · intro hb
              exact ⟨j, (ih q hqm j).2 hb, rfl⟩
      · obtain ⟨q, hq⟩ := ho
        have hqm : q < m := by omega
        subst hq
        rw [bitIterList_two_mul_add_one]
        cases i with
        | zero =>
            rw [testBit_two_mul_add_one_zero]
            simp
        | succ j =>
            rw [testBit_two_mul_add_one]
            simp only [List.mem_cons, List.mem_map]
            constructor
            · rintro (h0 | ⟨a, ha, hax⟩)
              · omega
              · have haj : a = j := by omega
                subst haj
                exact ((ih q hqm a).1 ha)
            · intro hb
              exact Or.inr ⟨j, (ih q hqm j).2 hb, rfl⟩

theorem pairwise_bitIterList (m : Nat) :
    (bitIterList m).Pairwise (· < ·) := by
  induction m using Nat.strong_induction_on with
  | _ m ih =>
    by_cases hm : m = 0
    · subst hm
      rw [bitIterList_zero]
      exact List.Pairwise.nil
    · rcases Nat.even_or_odd m with he | ho
      · obtain ⟨q, hq⟩ := he
        have hq2 : m = 2 * q := by omega
        have hqm : q < m := by omega
        subst hq2
        rw [bitIterList_two_mul, List.pairwise_map]
        exact (ih q hqm).imp (by omega)
      · obtain ⟨q, hq⟩ := ho
        have hqm : q < m := by omega
        subst hq
        rw [bitIterList_two_mul_add_one]
        refine List.Pairwise.cons ?_ ?_
        · intro x hx
          rw [List.mem_map] at hx
          obtain ⟨a, _, rfl⟩ := hx
          omega
        · rw [List.pairwise_map]
          exact (ih q hqm).imp (by omega)

theorem testBit_ofBits (l : List Bool) : ∀ i, (ofBits l).testBit i = l.getD i false := by
  induction l with
  | nil =>
      intro i
      simp [ofBits, Nat.zero_testBit]
  | cons b l ih =>
      intro i
      cases i with
      | zero =>
          rw [ofBits, Nat.testBit_zero, List.getD_cons_zero]
          cases b
          · simp [Nat.mul_mod_right]
          · simp [Nat.mul_add_mod]
      | succ j =>
          rw [ofBits, Nat.testBit_succ, List.getD_cons_succ]
          have hdiv : ((if b then 1 else 0) + 2 * ofBits l) / 2 = ofBits l := by
            cases b <;> simp <;> omega
          rw [hdiv, ih j]

theorem testBit_matchByte (group : Fin 16 → Nat) (byte : Nat) (i : Nat) :
    (matchByte group byte).testBit i = true ↔
      ∃ h : i < 16, group ⟨i, h⟩ = byte := by
  rw [matchByte, movemaskEpi8, testBit_ofBits, List.getD_eq_getElem?_getD,
    List.getElem?_ofFn]
  by_cases h : i < 16
  · rw [List.ofFnNthVal, dif_pos h]
    by_cases hg : group ⟨i, h⟩ = byte
    · have h255 : Nat.testBit 255 7 = true := by decide
      simp [cmpeqEpi8, hg, h, h255]
    · simp [cmpeqEpi8, hg]
  · rw [List.ofFnNthVal, dif_neg h]
    simp [h]

/-  ------------------------------------------------------------------
    C6: match_byte yields exactly the matching lanes, low bit first.
    ------------------------------------------------------------------ -/

/-- C6: for every 16-byte group and byte, the `match_byte` bitmask
iterator yields exactly the indexes `i < 16` with `group[i] == byte`, in
strictly increasing (low-bit-first) order, hence each exactly once, and
`any_set` is true iff at least one byte of the group matches. -/
theorem matchByte_spec (group : Fin 16 → Nat) (byte : Nat) :
    (∀ i : Nat, i ∈ bitIterList (matchByte group byte) ↔
      ∃ j : Fin 16, (j : Nat) = i ∧ group j = byte) ∧
    (bitIterList (matchByte group byte)).Pairwise (· < ·) ∧
    (bitIterList (matchByte group byte)).Nodup ∧
    (anySet (matchByte group byte) = true ↔ ∃ j : Fin 16, group j = byte) := by
  have hmem : ∀ i, i ∈ bitIterList (matchByte group byte) ↔
      ∃ h : i < 16, group ⟨i, h⟩ = byte :=
    fun i => (mem_bitIterList _ i).trans (testBit_matchByte group byte i)
  refine ⟨?_, pairwise_bitIterList _, ?_, ?_⟩
  · intro i
    rw [hmem i]
    constructor
    · rintro ⟨h, hg⟩
      exact ⟨⟨i, h⟩, rfl, hg⟩
    · rintro ⟨j, rfl, hg⟩
      exact ⟨j.isLt, by simpa [Fin.eta] using hg⟩
  · exact (pairwise_bitIterList _).imp (fun h => Nat.ne_of_lt h)
  · rw [anySet, bne_iff_ne]
    constructor
    · intro hne
      by_contra hno
      push_neg at hno
      apply hne
      apply Nat.eq_of_testBit_eq
      intro i
      rw [Nat.zero_testBit]
      by_contra hbit
      rw [Bool.not_eq_false] at hbit
      obtain ⟨h, hg⟩ := (testBit_matchByte group byte i).1 hbit
      exact hno ⟨i, h⟩ hg
    · rintro ⟨j, hj⟩
      intro h0
      have : (matchByte group byte).testBit j = true :=
        (testBit_matchByte group byte j).2 ⟨j.isLt, by simpa [Fin.eta] using hj⟩
      rw [h0, Nat.zero_testBit] at this
      exact Bool.false_ne_true this
